import Mathlib

/-
Verification of the recal caching layer (internal/cache/cache.go,
internal/server/server.go, internal/config/config.go) via a shallow
embedding.  Go machine integers and durations are modelled as `Int`
(the claims never exercise 64-bit overflow), instants in time as `Int`,
payload byte slices as `List Nat`, and Go maps as association lists in
insertion order (a concrete instantiation of Go's unspecified map
iteration order).  Each operation takes the current instant `now`
explicitly where the Go code reads `time.Now()`; the two reads inside
one `Set` are instantiated with the same instant.
-/

namespace Recal

/-- Go map read `m[k]`: first binding for `k` in the association list. -/
def lookupA {α : Type} : List (String × α) → String → Option α
  | [], _ => none
  | (k', v) :: rest, k => if k' = k then some v else lookupA rest k

/-- Go map write `m[k] = v`: replace the binding in place, or append. -/
def insertA {α : Type} : List (String × α) → String → α → List (String × α)
  | [], k, v => [(k, v)]
  | (k', v') :: rest, k, v =>
    if k' = k then (k, v) :: rest else (k', v') :: insertA rest k v

/-- Go `delete(m, k)`: drop every binding for `k` (a Go map holds at most one). -/
def eraseA {α : Type} : List (String × α) → String → List (String × α)
  | [], _ => []
  | (k', v) :: rest, k =>
    if k' = k then eraseA rest k else (k', v) :: eraseA rest k

/-- The action of `eraseA` on the key sequence alone. -/
def eraseKeys : List String → String → List String
  | [], _ => []
  | k' :: rest, k => if k' = k then eraseKeys rest k else k' :: eraseKeys rest k

/-- cache.go, `type Entry`: payload bytes, absolute expiry instant, validators. -/
structure Entry where
  data : List Nat
  expiry : Int
  etag : String
  lastModified : String
deriving DecidableEq

/-- cache.go:19 `Entry.IsExpired`: `time.Now().After(e.Expiry)`, i.e. strictly after. -/
def Entry.isExpired (e : Entry) (now : Int) : Bool := e.expiry < now

/-- cache.go:24 `Entry.Size`: `len(Data) + len(ETag) + len(LastModified) + 24`. -/
def Entry.size (e : Entry) : Int :=
  (e.data.length : Int) + (e.etag.utf8ByteSize : Int) + (e.lastModified.utf8ByteSize : Int) + 24

/-- cache.go:29 `type Cache`: entry map, limits, LRU access times, counters. -/
structure Cache where
  entries : List (String × Entry)
  maxSize : Int
  maxMemory : Int
  maxTTL : Int
  ttl : Int
  minTTL : Int
  accessLRU : List (String × Int)
  hits : Int
  misses : Int
  evictions : Int
  memory : Int
deriving DecidableEq

/-- cache.go:52 `NewCacheWithMemoryLimit`: constructs the store, no validation. -/
def newCacheWithMemoryLimit (maxSize defaultTTL minTTL maxMemory maxTTL : Int) : Cache :=
  { entries := []
    maxSize := maxSize
    maxMemory := maxMemory
    maxTTL := maxTTL
    ttl := defaultTTL
    minTTL := minTTL
    accessLRU := []
    hits := 0
    misses := 0
    evictions := 0
    memory := 0 }

/-- cache.go:47 `NewCache`: 20MB memory limit, 24h max TTL (durations in ns). -/
def newCache (maxSize defaultTTL minTTL : Int) : Cache :=
  newCacheWithMemoryLimit maxSize defaultTTL minTTL (20 * 1024 * 1024) (24 * 3600 * 1000000000)

/-- cache.go:70 `Cache.Get`: miss on absent; lazy removal plus miss on expired;
hit refreshes the access time. -/
def Cache.get (c : Cache) (now : Int) (key : String) : Option Entry × Cache :=
  match lookupA c.entries key with
  | none => (none, { c with misses := c.misses + 1 })
  | some entry =>
    if entry.isExpired now then
      (none, { c with entries := eraseA c.entries key
                      accessLRU := eraseA c.accessLRU key
                      memory := c.memory - entry.size
                      misses := c.misses + 1 })
    else
      (some entry, { c with accessLRU := insertA c.accessLRU key now
                            hits := c.hits + 1 })

/-- cache.go:189 loop body of `evictLRU`: running minimum by strict `Before`,
seeded with the first element (the `first` flag). -/
def findOldestAux (best : String × Int) : List (String × Int) → String × Int
  | [] => best
  | q :: rest => findOldestAux (if q.2 < best.2 then q else best) rest

/-- The key/time pair `evictLRU` selects from `accessLRU`, if any. -/
def findOldest : List (String × Int) → Option (String × Int)
  | [] => none
  | p :: rest => some (findOldestAux p rest)

/-- cache.go:180 `Cache.evictLRU`: remove the least-recently-accessed entry.
`oldestKey` stays `""` (and nothing is evicted) exactly when `accessLRU` is
empty or its minimum is held by the key `""`. -/
def Cache.evictLRU (c : Cache) : Cache :=
  if c.entries.length = 0 then c
  else
    let oldestKey : String :=
      match findOldest c.accessLRU with
      | none => ""
      | some p => p.1
    if oldestKey = "" then c
    else
      let mem' : Int :=
        match lookupA c.entries oldestKey with
        | some e => c.memory - e.size
        | none => c.memory
      { c with entries := eraseA c.entries oldestKey
               accessLRU := eraseA c.accessLRU oldestKey
               memory := mem'
               evictions := c.evictions + 1 }

/-- cache.go:134 the eviction loop of `Set`:
`for (len(entries) >= maxSize || memory+newSize > maxMemory) && len(entries) > 0`.
The Go loop has no fuel; every effective eviction removes one entry, so
`entries.length + 1` iterations reproduce it whenever each iteration evicts
(fuel exhaustion corresponds to the Go loop spinning forever on a no-op
`evictLRU`). -/
def Cache.evictLoop : Nat → Cache → Int → Cache
  | 0, c, _ => c
  | fuel + 1, c, newSize =>
    if (c.maxSize ≤ (c.entries.length : Int) ∨ c.maxMemory < c.memory + newSize)
        ∧ 0 < c.entries.length then
      Cache.evictLoop fuel c.evictLRU newSize
    else c

/-- cache.go:106 `Cache.Set`: clamp the TTL into `[minTTL, maxTTL]`, release the
overwritten entry's size, evict while over either limit, then insert. -/
def Cache.set (c : Cache) (now : Int) (key : String) (data : List Nat)
    (ttl : Int) (etag lastModified : String) : Cache :=
  let ttl1 := if ttl < c.minTTL then c.minTTL else ttl
  let ttl2 := if c.maxTTL < ttl1 then c.maxTTL else ttl1
  let newEntry : Entry :=
    { data := data, expiry := now + ttl2, etag := etag, lastModified := lastModified }
  let newSize := newEntry.size
  let c1 :=
    match lookupA c.entries key with
    | some oldEntry => { c with memory := c.memory - oldEntry.size }
    | none => c
  let c2 := Cache.evictLoop (c1.entries.length + 1) c1 newSize
  { c2 with entries := insertA c2.entries key newEntry
            accessLRU := insertA c2.accessLRU key now
            memory := c2.memory + newSize }

/-- cache.go:144 `Cache.SetWithDefaultTTL`. -/
def Cache.setWithDefaultTTL (c : Cache) (now : Int) (key : String) (data : List Nat)
    (etag lastModified : String) : Cache :=
  c.set now key data c.ttl etag lastModified

/-- cache.go:149 `Cache.Delete`. -/
def Cache.delete (c : Cache) (key : String) : Cache :=
  let c1 :=
    match lookupA c.entries key with
    | some entry => { c with memory := c.memory - entry.size }
    | none => c
  { c1 with entries := eraseA c1.entries key
            accessLRU := eraseA c1.accessLRU key }

/-- cache.go:161 `Cache.Clear`: counters survive, memory resets. -/
def Cache.clear (c : Cache) : Cache :=
  { c with entries := [], accessLRU := [], memory := 0 }

/-- cache.go:171 `Cache.Size`: current entry count. -/
def Cache.size (c : Cache) : Nat := c.entries.length

/-- cache.go:209 `Cache.CleanupExpired`: sweep every expired entry, count removals. -/
def Cache.cleanupExpired (c : Cache) (now : Int) : Nat × Cache :=
  c.entries.foldl
    (fun acc p =>
      if p.2.expiry < now then
        (acc.1 + 1,
         { acc.2 with entries := eraseA acc.2.entries p.1
                      accessLRU := eraseA acc.2.accessLRU p.1
                      memory := acc.2.memory - p.2.size })
      else acc)
    (0, c)

/-- The byte stream cache.go:271 `HashKey` feeds to the SHA-256 digest: each
component's bytes followed by the separator byte 0.  The digest itself is an
external cryptographic primitive; the fingerprint claims are settled at the
level of this input stream, a component standing for the bytes of the Go
string (which may themselves contain the byte 0). -/
def hashKeyStream : List (List Nat) → List Nat
  | [] => []
  | comp :: rest => comp ++ [0] ++ hashKeyStream rest

/-- Sum of the sizes of the entries currently present (spec §3 invariant). -/
def sumEntrySizes (l : List (String × Entry)) : Int :=
  l.foldl (fun acc p => acc + p.2.size) 0

/-- The structural invariant the Go code maintains between its two maps:
`entries` and `accessLRU` hold the same keys (here, the same key sequence),
without duplicates. -/
def Cache.WF (c : Cache) : Prop :=
  c.entries.map Prod.fst = c.accessLRU.map Prod.fst ∧ (c.entries.map Prod.fst).Nodup

instance (c : Cache) : Decidable c.WF := by
  unfold Cache.WF; infer_instance

/-- fetcher.go `Response`, restricted to the fields `fetchUpstream` reads.
`parsedTTL` stands for `fetcher.ParseCacheHeaders(resp.CacheControl,
resp.Expires)`, the TTL the external header parser extracts (0 when no usable
directive is present). -/
structure FetchResponse where
  body : List Nat
  etag : String
  lastModified : String
  parsedTTL : Int
deriving DecidableEq

/-- Outcome of `Fetcher.FetchConditional`: error, 304, or modified content. -/
inductive CondFetchResult where
  | fetchError
  | notModified
  | modified (resp : FetchResponse)
deriving DecidableEq

/-- Outcome of `Fetcher.Fetch`: error or content. -/
inductive FetchOutcome where
  | fetchError
  | ok (resp : FetchResponse)
deriving DecidableEq

/-- The external origin-fetch collaborator, as one call's worth of behaviour:
what the conditional fetch answers for a URL and validator pair, and what the
unconditional fetch answers for a URL. -/
structure Origin where
  conditional : String → String → String → CondFetchResult
  unconditional : String → FetchOutcome

/-- server.go:471 `Server.fetchUpstream` (the resolve operation), acting on the
raw-document cache.  Returns `(body, effectiveTTL)` on success, `none` on
origin failure, together with the updated cache. `defaultTTL` is
`s.cfg.Cache.DefaultTTL`. -/
def fetchUpstream (origin : Origin) (defaultTTL : Int) (c : Cache) (now : Int)
    (url : String) : Option (List Nat × Int) × Cache :=
  match c.get now url with
  | (some entry, c1) =>
    match origin.conditional url entry.etag entry.lastModified with
    | .fetchError => (none, c1)
    | .notModified => (some (entry.data, entry.expiry - now), c1)
    | .modified resp =>
      let ttl := if resp.parsedTTL = 0 then defaultTTL else resp.parsedTTL
      (some (resp.body, ttl), c1.set now url resp.body ttl resp.etag resp.lastModified)
  | (none, c1) =>
    match origin.unconditional url with
    | .fetchError => (none, c1)
    | .ok resp =>
      let ttl := if resp.parsedTTL = 0 then defaultTTL else resp.parsedTTL
      (some (resp.body, ttl), c1.set now url resp.body ttl resp.etag resp.lastModified)

/-- config.go `ServerConfig` (durations in ns). -/
structure ServerConfig where
  port : Int
  readTimeout : Int
  writeTimeout : Int
  idleTimeout : Int
  baseURL : String

/-- config.go `UpstreamConfig`. -/
structure UpstreamConfig where
  defaultURL : String
  timeout : Int

/-- config.go `CacheConfig`. -/
structure CacheConfig where
  maxSize : Int
  maxMemory : Int
  defaultTTL : Int
  minOutputCache : Int
  maxTTL : Int

/-- config.go `RegexConfig`. -/
structure RegexConfig where
  maxExecutionTime : Int

/-- config.go `GradeFilterConfig`. -/
structure GradeFilterConfig where
  field : String
  patternTemplate : String

/-- config.go `PatternSpec`. -/
structure PatternSpec where
  template : String

/-- config.go `LodgeFilterConfig`; `none` models a nil Go map. -/
structure LodgeFilterConfig where
  field : String
  names : List String
  patterns : Option (List (String × PatternSpec))

/-- config.go `SimpleFilterConfig`. -/
structure SimpleFilterConfig where
  field : String
  pattern : String
  description : String

/-- config.go `FiltersConfig`. -/
structure FiltersConfig where
  grade : GradeFilterConfig
  lodge : LodgeFilterConfig
  confirmedOnly : SimpleFilterConfig
  installt : SimpleFilterConfig

/-- config.go `Config`. -/
structure Config where
  server : ServerConfig
  upstream : UpstreamConfig
  cache : CacheConfig
  regex : RegexConfig
  filters : FiltersConfig

/-- config.go:156 `validate`: the checks run at configuration-load time,
before any cache store is constructed. -/
def validate (cfg : Config) : Except String Unit :=
  if cfg.server.port ≤ 0 ∨ 65535 < cfg.server.port then .error "invalid server port"
  else if cfg.server.baseURL = "" then .error "server base URL cannot be empty"
  else if cfg.upstream.defaultURL = "" then .error "upstream default URL cannot be empty"
  else if cfg.cache.maxSize ≤ 0 then .error "cache max size must be positive"
  else if cfg.cache.defaultTTL ≤ 0 then .error "cache default TTL must be positive"
  else if cfg.cache.minOutputCache ≤ 0 then .error "cache min output cache must be positive"
  else if cfg.cache.maxMemory ≤ 0 then .error "cache max memory must be positive"
  else if cfg.cache.maxTTL ≤ 0 then .error "cache max TTL must be positive"
  else if cfg.upstream.timeout ≤ 0 then .error "upstream timeout must be positive"
  else if cfg.regex.maxExecutionTime ≤ 0 then .error "regex max execution time must be positive"
  else if cfg.filters.grade.field = "" then .error "grade filter field cannot be empty"
  else if cfg.filters.grade.patternTemplate = "" then
    .error "grade filter pattern template cannot be empty"
  else if cfg.filters.lodge.field = "" then .error "lodge filter field cannot be empty"
  else
    match cfg.filters.lodge.patterns with
    | none => .error "lodge filter patterns cannot be nil"
    | some pats =>
      match lookupA pats "default" with
      | none => .error "lodge filter must have a default pattern"
      | some _ => .ok ()

/-- A well-formed configuration, used as a concrete witness input. -/
def cfgValid : Config :=
  { server := { port := 8080, readTimeout := 1, writeTimeout := 1, idleTimeout := 1,
                baseURL := "b" }
    upstream := { defaultURL := "u", timeout := 1 }
    cache := { maxSize := 100, maxMemory := 1000, defaultTTL := 60, minOutputCache := 1,
               maxTTL := 3600 }
    regex := { maxExecutionTime := 1 }
    filters :=
      { grade := { field := "SUMMARY", patternTemplate := "Grad" }
        lodge := { field := "SUMMARY", names := [],
                   patterns := some [("default", { template := "t" })] }
        confirmedOnly := { field := "STATUS", pattern := "CONFIRMED", description := "" }
        installt := { field := "SUMMARY", pattern := "X", description := "" } } }

/-- Store of capacity 10 with memory budget 10; a single empty-payload entry
weighs 24 bytes, more than the whole budget. -/
def overBudgetTrace : Cache := (newCacheWithMemoryLimit 10 60 1 10 100).set 0 "k" [] 5 "" ""

/-- Overwrite of the only key of a store at entry capacity: the release of the
old entry's size is followed by the eviction loop evicting that same key. -/
def doubleDecTrace : Cache :=
  ((newCacheWithMemoryLimit 1 60 1 1000 100).set 0 "k" [] 10 "" "").set 1 "k" [] 10 "" ""

/-- LRU trace of spec §8: capacity 3; insert A, B, C; read A; insert D. -/
def lruTrace3 : Cache :=
  (((newCacheWithMemoryLimit 3 300 1 1000000 3600).set 1 "A" [] 60 "" "").set 2 "B" [] 60 "" "").set
    3 "C" [] 60 "" ""

/-- The LRU trace after A is read (refreshing its recency). -/
def lruTrace4 : Cache := (lruTrace3.get 4 "A").2

/-- The LRU trace after D is inserted over capacity. -/
def lruTrace5 : Cache := lruTrace4.set 5 "D" [] 60 "" ""

/-- Cache holding one entry for "u" that expires at instant 3 (witness input). -/
def cacheU : Cache := (newCacheWithMemoryLimit 5 60 1 1000 100).set 0 "u" [1] 3 "t" "m"

/-- The entry `cacheU` stores under "u". -/
def entryU : Entry := { data := [1], expiry := 3, etag := "t", lastModified := "m" }

/-- An origin response carrying a parsed TTL of 9999 (witness input). -/
def respW : FetchResponse := { body := [7], etag := "e2", lastModified := "m2", parsedTTL := 9999 }

/-- An empty store with minTTL 1 and maxTTL 100 (witness input). -/
def cacheW : Cache := newCacheWithMemoryLimit 5 60 1 1000 100

/-- An origin whose conditional and unconditional fetches both fail. -/
def originFail : Origin :=
  { conditional := fun _ _ _ => .fetchError, unconditional := fun _ => .fetchError }

/-- An origin that always answers "not modified" to a conditional fetch. -/
def originNotModified : Origin :=
  { conditional := fun _ _ _ => .notModified, unconditional := fun _ => .fetchError }

/-- An origin that always serves the given response. -/
def originServes (resp : FetchResponse) : Origin :=
  { conditional := fun _ _ _ => .modified resp, unconditional := fun _ => .ok resp }

/- ------------------------------------------------------------------ -/
/- Library lemmas about the association-list operations.              -/
/- ------------------------------------------------------------------ -/

theorem lookupA_insertA_self {α : Type} (l : List (String × α)) (k : String) (v : α) :
    lookupA (insertA l k v) k = some v := by
  induction l with
  | nil => simp [insertA, lookupA]
  | cons p rest ih =>
    obtain ⟨k', v'⟩ := p
    by_cases h : k' = k
    · simp [insertA, h, lookupA]
    · simp [insertA, h, lookupA, ih]

theorem length_insertA_le {α : Type} (l : List (String × α)) (k : String) (v : α) :
    (insertA l k v).length ≤ l.length + 1 := by
  induction l with
  | nil => simp [insertA]
  | cons p rest ih =>
    obtain ⟨k', v'⟩ := p
    by_cases h : k' = k
    · simp [insertA, h]
    · simp only [insertA, if_neg h, List.length_cons]
      omega

theorem map_fst_eraseA {α : Type} (l : List (String × α)) (k : String) :
    (eraseA l k).map Prod.fst = eraseKeys (l.map Prod.fst) k := by
  induction l with
  | nil => simp [eraseA, eraseKeys]
  | cons p rest ih =>
    obtain ⟨k', v'⟩ := p
    by_cases h : k' = k
    · simp [eraseA, eraseKeys, h, ih]
    · simp [eraseA, eraseKeys, h, ih]

theorem eraseKeys_sublist (l : List String) (k : String) : (eraseKeys l k).Sublist l := by
  induction l with
  | nil => simp [eraseKeys]
  | cons k' rest ih =>
    by_cases h : k' = k
    · simp only [eraseKeys, if_pos h]
      exact ih.cons k'
    · simp only [eraseKeys, if_neg h]
      exact ih.cons₂ k'

theorem eraseKeys_of_not_mem (l : List String) (k : String) (h : k ∉ l) :
    eraseKeys l k = l := by
  induction l with
  | nil => simp [eraseKeys]
  | cons k' rest ih =>
    have hne : k' ≠ k := fun he => h (by simp [he])
    have : k ∉ rest := fun hm => h (by simp [hm])
    simp [eraseKeys, hne, ih this]

theorem length_eraseKeys_add_one (l : List String) (k : String) (hm : k ∈ l)
    (hnd : l.Nodup) : (eraseKeys l k).length + 1 = l.length := by
  induction l with
  | nil => simp at hm
  | cons k' rest ih =>
    by_cases h : k' = k
    · have : k ∉ rest := by
        subst h
        exact (List.nodup_cons.mp hnd).1
      simp [eraseKeys, h, eraseKeys_of_not_mem rest k this]
    · have hm' : k ∈ rest := by
        cases List.mem_cons.mp hm with
        | inl he => exact absurd he.symm h
        | inr hr => exact hr
      have := ih hm' (List.nodup_cons.mp hnd).2
      simp only [eraseKeys, if_neg h, List.length_cons]
      omega

theorem lookupA_eraseA_self {α : Type} (l : List (String × α)) (k : String) :
    lookupA (eraseA l k) k = none := by
  induction l with
  | nil => simp [eraseA, lookupA]
  | cons p rest ih =>
    obtain ⟨k', v'⟩ := p
    by_cases h : k' = k
    · simp [eraseA, h, ih]
    · simp [eraseA, lookupA, h, ih]

theorem lookupA_mem_keys {α : Type} (l : List (String × α)) (k : String) (v : α)
    (h : lookupA l k = some v) : k ∈ l.map Prod.fst := by
  induction l with
  | nil => simp [lookupA] at h
  | cons p rest ih =>
    obtain ⟨k', v'⟩ := p
    by_cases he : k' = k
    · simp [he]
    · simp only [lookupA, if_neg he] at h
      simp [ih h]

theorem findOldestAux_mem (best : String × Int) (l : List (String × Int)) :
    findOldestAux best l ∈ best :: l := by
  induction l generalizing best with
  | nil => simp [findOldestAux]
  | cons q rest ih =>
    simp only [findOldestAux]
    by_cases h : q.2 < best.2
    · rw [if_pos h]
      exact List.mem_cons_of_mem best (ih q)
    · rw [if_neg h]
      cases List.mem_cons.mp (ih best) with
      | inl he =>
        rw [he]
        exact List.mem_cons_self best (q :: rest)
      | inr hr => exact List.mem_cons_of_mem best (List.mem_cons_of_mem q hr)

/-- Splitting a separator-terminated component off a byte stream is unambiguous
when the component itself is free of the separator byte. -/
theorem sep_component_inj (a : List Nat) : ∀ (b x y : List Nat), 0 ∉ a → 0 ∉ b →
    a ++ 0 :: x = b ++ 0 :: y → a = b ∧ x = y := by
  induction a with
  | nil =>
    intro b x y _ hb h
    cases b with
    | nil =>
      simp only [List.nil_append, List.cons.injEq] at h
      exact ⟨rfl, h.2⟩
    | cons hb' tb =>
      simp only [List.nil_append, List.cons_append, List.cons.injEq] at h
      exact absurd (h.1 ▸ List.mem_cons_self hb' tb) hb
  | cons ha ta ih =>
    intro b x y ha' hb h
    cases b with
    | nil =>
      simp only [List.cons_append, List.nil_append, List.cons.injEq] at h
      exact absurd (h.1 ▸ List.mem_cons_self ha ta) ha'
    | cons hb' tb =>
      simp only [List.cons_append, List.cons.injEq] at h
      have hta : (0 : Nat) ∉ ta := fun hm => ha' (List.mem_cons_of_mem ha hm)
      have htb : (0 : Nat) ∉ tb := fun hm => hb (List.mem_cons_of_mem hb' hm)
      obtain ⟨hab, hxy⟩ := ih tb x y hta htb h.2
      exact ⟨by rw [h.1, hab], hxy⟩

/-- The stream of a nonempty component list is nonempty. -/
theorem hashKeyStream_ne_nil (c : List Nat) (rest : List (List Nat)) :
    hashKeyStream (c :: rest) ≠ [] := by
  simp only [hashKeyStream]
  intro h
  have := congrArg List.length h
  simp at this

theorem length_eraseA_add_one {α : Type} (l : List (String × α)) (k : String)
    (hm : k ∈ l.map Prod.fst) (hnd : (l.map Prod.fst).Nodup) :
    (eraseA l k).length + 1 = l.length := by
  have h1 : (eraseA l k).length = ((eraseA l k).map Prod.fst).length := by simp
  rw [h1, map_fst_eraseA]
  have h2 := length_eraseKeys_add_one (l.map Prod.fst) k hm hnd
  simpa using h2

/-- The entry a `set` leaves under its own key, with the expiry exactly as the
sequential min/max clamps of cache.go:111-118 compute it. -/
theorem lookupA_set_self (c : Cache) (now : Int) (key : String) (data : List Nat)
    (ttl : Int) (etag lastModified : String) :
    lookupA (c.set now key data ttl etag lastModified).entries key =
      some { data := data
             expiry := now + (if c.maxTTL < (if ttl < c.minTTL then c.minTTL else ttl)
                              then c.maxTTL
                              else (if ttl < c.minTTL then c.minTTL else ttl))
             etag := etag
             lastModified := lastModified } := by
  show lookupA (insertA _ key _) key = _
  rw [lookupA_insertA_self]

/-- What `evictLRU` does when `accessLRU` is nonempty and the selected minimum
does not carry the empty key. -/
theorem evictLRU_eq (c : Cache) (p : String × Int) (rest : List (String × Int))
    (hacc : c.accessLRU = p :: rest) (hlen : ¬c.entries.length = 0)
    (hne : ¬(findOldestAux p rest).1 = "") :
    c.evictLRU =
      { c with entries := eraseA c.entries (findOldestAux p rest).1
               accessLRU := eraseA c.accessLRU (findOldestAux p rest).1
               memory := match lookupA c.entries (findOldestAux p rest).1 with
                         | some e => c.memory - e.size
                         | none => c.memory
               evictions := c.evictions + 1 } := by
  conv_lhs => rw [Cache.evictLRU, if_neg hlen, hacc]
  simp only [findOldest, if_neg hne]
  rw [← hacc]

/-- Under the structural invariant and in the absence of the empty key, an
eviction from a nonempty store removes exactly one entry and preserves the
invariant and the configured limits. -/
theorem evictLRU_shrink (c : Cache) (hwf : c.WF) (hne : "" ∉ c.entries.map Prod.fst)
    (hpos : 0 < c.entries.length) :
    c.evictLRU.entries.length + 1 = c.entries.length ∧ c.evictLRU.WF ∧
    "" ∉ c.evictLRU.entries.map Prod.fst ∧
    c.evictLRU.maxSize = c.maxSize ∧ c.evictLRU.maxMemory = c.maxMemory := by
  obtain ⟨hkeys, hnd⟩ := hwf
  have hlenacc : c.accessLRU.length = c.entries.length := by
    have h1 := congrArg List.length hkeys
    simpa using h1.symm
  cases hacc : c.accessLRU with
  | nil =>
    rw [hacc] at hlenacc
    simp at hlenacc
    omega
  | cons p rest =>
    have hqmem : findOldestAux p rest ∈ p :: rest := findOldestAux_mem p rest
    have hqkeyacc : (findOldestAux p rest).1 ∈ c.accessLRU.map Prod.fst := by
      rw [hacc]
      exact List.mem_map_of_mem Prod.fst hqmem
    have hqkey : (findOldestAux p rest).1 ∈ c.entries.map Prod.fst := by
      rw [hkeys]
      exact hqkeyacc
    have hqne : ¬(findOldestAux p rest).1 = "" := fun he => hne (he ▸ hqkey)
    have heq := evictLRU_eq c p rest hacc (by omega) hqne
    rw [heq]
    refine ⟨?_, ⟨?_, ?_⟩, ?_, rfl, rfl⟩
    · exact length_eraseA_add_one c.entries (findOldestAux p rest).1 hqkey hnd
    · show (eraseA c.entries _).map Prod.fst = (eraseA c.accessLRU _).map Prod.fst
      rw [map_fst_eraseA, map_fst_eraseA, hkeys]
    · show ((eraseA c.entries _).map Prod.fst).Nodup
      rw [map_fst_eraseA]
      exact List.Nodup.sublist (eraseKeys_sublist _ _) hnd
    · show "" ∉ (eraseA c.entries _).map Prod.fst
      rw [map_fst_eraseA]
      intro hmem
      exact hne ((eraseKeys_sublist _ _).subset hmem)

/-- Given enough fuel (more than the entry count) the eviction loop exits with
its guard false: either the store was drained empty, or the entry count is
strictly below capacity and the projected memory fits the budget. -/
theorem evictLoop_exit (fuel : Nat) :
    ∀ (c : Cache) (ns : Int), c.WF → "" ∉ c.entries.map Prod.fst →
      c.entries.length < fuel →
      (Cache.evictLoop fuel c ns).WF ∧
      "" ∉ (Cache.evictLoop fuel c ns).entries.map Prod.fst ∧
      (Cache.evictLoop fuel c ns).maxSize = c.maxSize ∧
      (Cache.evictLoop fuel c ns).maxMemory = c.maxMemory ∧
      ((Cache.evictLoop fuel c ns).entries.length = 0 ∨
        (((Cache.evictLoop fuel c ns).entries.length : Int) < c.maxSize ∧
         (Cache.evictLoop fuel c ns).memory + ns ≤ c.maxMemory)) := by
  induction fuel with
  | zero =>
    intro c ns _ _ hlt
    simp at hlt
  | succ fuel ih =>
    intro c ns hwf hne hlt
    by_cases hcond : (c.maxSize ≤ (c.entries.length : Int) ∨ c.maxMemory < c.memory + ns)
        ∧ 0 < c.entries.length
    · rw [Cache.evictLoop, if_pos hcond]
      obtain ⟨hlen1, hwf', hne', hmaxS, hmaxM⟩ := evictLRU_shrink c hwf hne hcond.2
      have hrec := ih c.evictLRU ns hwf' hne' (by omega)
      rw [hmaxS, hmaxM] at hrec
      exact hrec
    · rw [Cache.evictLoop, if_neg hcond]
      refine ⟨hwf, hne, rfl, rfl, ?_⟩
      omega

/- ------------------------------------------------------------------ -/
/- Claim theorems.                                                    -/
/- ------------------------------------------------------------------ -/

/-- Claim C3 counterexample: the separator byte 0 can occur inside a
component (a Go string may contain the NUL byte), so two distinct ordered
component lists can feed the same byte stream to the digest: the one-component
list ["a\x00"] and the two-component list ["a", ""] both produce the stream
97, 0, 0. -/
theorem hashKeyStream_collision :
    ([[97, 0]] : List (List Nat)) ≠ [[97], []] ∧
    hashKeyStream [[97, 0]] = hashKeyStream [[97], []] := by decide

/-- Claim C3 (amended): the fingerprint byte stream is deterministic (it is a
function of the ordered component list), and for component lists in which no
component contains the separator byte 0, the stream determines the list: two
such lists feed the same stream to the digest exactly when they are equal.
Order-sensitivity for distinct lists and the ["ab"] versus ["a","b"]
distinction follow.  Components containing the separator byte 0 are exempt:
there distinct lists can collide. -/
theorem hashKeyStream_sepFree_inj (l₁ l₂ : List (List Nat))
    (h₁ : ∀ comp ∈ l₁, (0 : Nat) ∉ comp) (h₂ : ∀ comp ∈ l₂, (0 : Nat) ∉ comp) :
    hashKeyStream l₁ = hashKeyStream l₂ ↔ l₁ = l₂ := by
  constructor
  · intro h
    induction l₁ generalizing l₂ with
    | nil =>
      cases l₂ with
      | nil => rfl
      | cons c rest =>
        simp only [hashKeyStream] at h
        exact absurd h.symm (hashKeyStream_ne_nil c rest)
    | cons c rest ih =>
      cases l₂ with
      | nil => exact absurd h (hashKeyStream_ne_nil c rest)
      | cons c' rest' =>
        simp only [hashKeyStream, List.append_assoc, List.singleton_append] at h
        have hc : (0 : Nat) ∉ c := h₁ c (List.mem_cons_self c rest)
        have hc' : (0 : Nat) ∉ c' := h₂ c' (List.mem_cons_self c' rest')
        obtain ⟨he, hs⟩ := sep_component_inj c c' (hashKeyStream rest) (hashKeyStream rest') hc hc' h
        have hrest : ∀ comp ∈ rest, (0 : Nat) ∉ comp :=
          fun comp hm => h₁ comp (List.mem_cons_of_mem c hm)
        have hrest' : ∀ comp ∈ rest', (0 : Nat) ∉ comp :=
          fun comp hm => h₂ comp (List.mem_cons_of_mem c' hm)
        rw [he, ih rest' hrest hrest' hs]
  · intro h
    rw [h]

/-- Claim C3 witness: distinct separator-free component lists, here the swap
of "a" and "b" and the split of "ab", have distinct streams. -/
theorem hashKeyStream_sepFree_inj_witness :
    (hashKeyStream [[97], [98]] = hashKeyStream [[98], [97]] ↔
      ([[97], [98]] : List (List Nat)) = [[98], [97]]) ∧
    (hashKeyStream [[97, 98]] = hashKeyStream [[97], [98]] ↔
      ([[97, 98]] : List (List Nat)) = [[97], [98]]) :=
  ⟨hashKeyStream_sepFree_inj [[97], [98]] [[98], [97]] (by decide) (by decide),
   hashKeyStream_sepFree_inj [[97, 98]] [[97], [98]] (by decide) (by decide)⟩

/-- Claim C7: the stored entry's effective TTL (expiry minus insertion instant)
is the requested TTL clamped into [minTTL, maxTTL]: minTTL when the request is
below it (including a zero TTL when minTTL is positive), maxTTL when above it,
the request itself otherwise. -/
theorem set_ttl_clamped (c : Cache) (now : Int) (key : String) (data : List Nat)
    (ttl : Int) (etag lastModified : String) (h : c.minTTL ≤ c.maxTTL) :
    lookupA (c.set now key data ttl etag lastModified).entries key =
      some { data := data
             expiry := now + (if ttl < c.minTTL then c.minTTL
                              else if c.maxTTL < ttl then c.maxTTL else ttl)
             etag := etag
             lastModified := lastModified } := by
  show lookupA (insertA _ key _) key = _
  rw [lookupA_insertA_self]
  have harith : (if c.maxTTL < (if ttl < c.minTTL then c.minTTL else ttl) then c.maxTTL
                 else if ttl < c.minTTL then c.minTTL else ttl) =
      (if ttl < c.minTTL then c.minTTL else if c.maxTTL < ttl then c.maxTTL else ttl) := by
    split_ifs <;> omega
  rw [harith]

/-- Claim C7 witness: a requested TTL of 0 on a store with bounds [60, 3600]
is stored with effective TTL 60. -/
theorem set_ttl_clamped_witness :
    lookupA ((newCacheWithMemoryLimit 10 300 60 1000 3600).set 5 "k" [] 0 "" "").entries "k" =
      some { data := [], expiry := 5 + 60, etag := "", lastModified := "" } := by
  have := set_ttl_clamped (newCacheWithMemoryLimit 10 300 60 1000 3600) 5 "k" [] 0 "" ""
    (by decide)
  simpa using this

/-- Claim C8 counterexample: the store constructor accepts a zero entry
capacity and a negative memory budget without failing, and the resulting store
even accepts a Set; nothing is rejected at construction time. -/
theorem constructor_accepts_invalid_bounds :
    (newCacheWithMemoryLimit 0 60 1 (-5) 100).maxSize = 0 ∧
    (newCacheWithMemoryLimit 0 60 1 (-5) 100).maxMemory = -5 ∧
    ((newCacheWithMemoryLimit 0 60 1 (-5) 100).set 0 "k" [] 10 "" "").entries.length = 1 := by
  decide

/-- Claim C8 (amended): zero or negative entry capacity or memory budget is
rejected at configuration-validation time (config.go validate, run when the
configuration is loaded, before the stores are constructed), not at request
time; the store constructor itself performs no validation. -/
theorem validate_rejects_nonpositive_cache_bounds (cfg : Config)
    (h : validate cfg = .ok ()) :
    0 < cfg.cache.maxSize ∧ 0 < cfg.cache.maxMemory := by
  unfold validate at h
  by_cases h1 : cfg.server.port ≤ 0 ∨ 65535 < cfg.server.port
  · rw [if_pos h1] at h
    exact Except.noConfusion h
  rw [if_neg h1] at h
  by_cases h2 : cfg.server.baseURL = ""
  · rw [if_pos h2] at h
    exact Except.noConfusion h
  rw [if_neg h2] at h
  by_cases h3 : cfg.upstream.defaultURL = ""
  · rw [if_pos h3] at h
    exact Except.noConfusion h
  rw [if_neg h3] at h
  by_cases h4 : cfg.cache.maxSize ≤ 0
  · rw [if_pos h4] at h
    exact Except.noConfusion h
  rw [if_neg h4] at h
  by_cases h5 : cfg.cache.defaultTTL ≤ 0
  · rw [if_pos h5] at h
    exact Except.noConfusion h
  rw [if_neg h5] at h
  by_cases h6 : cfg.cache.minOutputCache ≤ 0
  · rw [if_pos h6] at h
    exact Except.noConfusion h
  rw [if_neg h6] at h
  by_cases h7 : cfg.cache.maxMemory ≤ 0
  · rw [if_pos h7] at h
    exact Except.noConfusion h
  exact ⟨by omega, by omega⟩

/-- Claim C8 witness: a concrete configuration that validates has positive
cache bounds. -/
theorem validate_rejects_nonpositive_cache_bounds_witness :
    0 < cfgValid.cache.maxSize ∧ 0 < cfgValid.cache.maxMemory :=
  validate_rejects_nonpositive_cache_bounds cfgValid (by rfl)

/-- Claim C9: with capacity 3, after inserting A, B, C at increasing access
times and then reading A, inserting D evicts exactly one entry, namely B (the
least recently accessed); the count stays at capacity, A is still a hit and B
is a miss. -/
theorem lru_evicts_least_recently_accessed :
    lruTrace5.size = 3 ∧
    lruTrace5.evictions = 1 ∧
    lookupA lruTrace5.entries "B" = none ∧
    (lookupA lruTrace5.entries "A").isSome = true ∧
    (lookupA lruTrace5.entries "C").isSome = true ∧
    (lookupA lruTrace5.entries "D").isSome = true ∧
    ((lruTrace5.get 6 "A").1).isSome = true ∧
    (lruTrace5.get 6 "B").1 = none ∧
    (lruTrace5.get 6 "A").2.hits = lruTrace5.hits + 1 ∧
    (lruTrace5.get 6 "B").2.misses = lruTrace5.misses + 1 := by decide

/-- Claim C1 counterexample: on a store with positive capacity 10 and positive
memory budget 10, a Set of an empty payload (size 24) completes with the
store's accounted memory 24, over the budget: the eviction loop stops once the
store is empty and the oversized entry is inserted regardless. -/
theorem set_completes_over_memory_budget :
    overBudgetTrace.maxMemory < overBudgetTrace.memory ∧ overBudgetTrace.size = 1 := by decide

/-- Claim C1 (amended): on a store with positive capacity whose stored keys are
nonempty strings (so that the Go eviction loop terminates), every completed Set
leaves the entry count at most maxSize, and leaves the accounted memory at most
maxMemory unless the store holds exactly one entry, the newly inserted one,
whose size alone may exceed the budget; all eviction happens inside Set before
the insertion. -/
theorem set_respects_capacity_and_memory (c : Cache) (now : Int) (key : String)
    (data : List Nat) (ttl : Int) (etag lastModified : String)
    (hwf : c.WF) (hne : "" ∉ c.entries.map Prod.fst) (hcap : 1 ≤ c.maxSize) :
    (((c.set now key data ttl etag lastModified).entries.length : Int) ≤ c.maxSize) ∧
    ((c.set now key data ttl etag lastModified).memory ≤ c.maxMemory ∨
      (c.set now key data ttl etag lastModified).entries.length = 1) := by
  have hcore : ∀ (crel : Cache), crel.entries = c.entries → crel.maxSize = c.maxSize →
      crel.maxMemory = c.maxMemory → crel.WF → ∀ (ns : Int) (ne : Entry),
      (((insertA (Cache.evictLoop (crel.entries.length + 1) crel ns).entries key ne).length : Int)
          ≤ c.maxSize) ∧
      ((Cache.evictLoop (crel.entries.length + 1) crel ns).memory + ns ≤ c.maxMemory ∨
        (insertA (Cache.evictLoop (crel.entries.length + 1) crel ns).entries key ne).length = 1) := by
    intro crel hent hms hmm hwf' ns ne
    have hne' : "" ∉ crel.entries.map Prod.fst := by
      rw [hent]
      exact hne
    obtain ⟨-, -, -, -, hdisj⟩ :=
      evictLoop_exit (crel.entries.length + 1) crel ns hwf' hne' (by omega)
    rw [hms, hmm] at hdisj
    cases hdisj with
    | inl h0 =>
      have hnil : (Cache.evictLoop (crel.entries.length + 1) crel ns).entries = [] :=
        List.length_eq_zero.mp h0
      rw [hnil]
      exact ⟨by exact_mod_cast hcap, Or.inr rfl⟩
    | inr hfit =>
      have hins :=
        length_insertA_le (Cache.evictLoop (crel.entries.length + 1) crel ns).entries key ne
      exact ⟨by omega, Or.inl hfit.2⟩
  cases hl : lookupA c.entries key with
  | none =>
    simp only [Cache.set, hl]
    exact hcore c rfl rfl rfl hwf _ _
  | some old =>
    simp only [Cache.set, hl]
    exact hcore { c with memory := c.memory - old.size } rfl rfl rfl hwf _ _

/-- Claim C1 witness: a Set on a well-formed store with capacity 10 obeys the
amended bounds. -/
theorem set_respects_capacity_and_memory_witness :
    (((cacheU.set 1 "k" [2] 5 "" "").entries.length : Int) ≤ cacheU.maxSize) ∧
    ((cacheU.set 1 "k" [2] 5 "" "").memory ≤ cacheU.maxMemory ∨
      (cacheU.set 1 "k" [2] 5 "" "").entries.length = 1) :=
  set_respects_capacity_and_memory cacheU 1 "k" [2] 5 "" "" (by decide) (by decide) (by decide)

/-- Claim C4: a Get returns the entry exactly when the key is present with an
unexpired entry, refreshing its access time and counting a hit; a present but
expired entry is removed (the reported entry count drops by one), the lookup
answers none and counts a miss; an absent key counts a miss; in every case
exactly one of the two counters increases. -/
theorem get_contract (c : Cache) (now : Int) (key : String) (eo : Option Entry)
    (hwf : c.WF) (hl : lookupA c.entries key = eo) :
    match eo with
    | none => c.get now key = (none, { c with misses := c.misses + 1 })
    | some e =>
      if e.isExpired now then
        (c.get now key).1 = none ∧
        lookupA (c.get now key).2.entries key = none ∧
        (c.get now key).2.size + 1 = c.size ∧
        (c.get now key).2.misses = c.misses + 1 ∧
        (c.get now key).2.hits = c.hits
      else
        (c.get now key).1 = some e ∧
        (c.get now key).2.hits = c.hits + 1 ∧
        (c.get now key).2.misses = c.misses ∧
        (c.get now key).2.accessLRU = insertA c.accessLRU key now ∧
        (c.get now key).2.entries = c.entries := by
  cases eo with
  | none => simp [Cache.get, hl]
  | some e =>
    show if e.isExpired now then _ else _
    by_cases hexp : e.isExpired now = true
    · rw [if_pos hexp]
      have hkey := lookupA_mem_keys c.entries key e hl
      have hred : c.get now key =
          (none, { c with entries := eraseA c.entries key
                          accessLRU := eraseA c.accessLRU key
                          memory := c.memory - e.size
                          misses := c.misses + 1 }) := by
        simp [Cache.get, hl, hexp]
      rw [hred]
      exact ⟨rfl, lookupA_eraseA_self c.entries key,
        length_eraseA_add_one c.entries key hkey hwf.2, rfl, rfl⟩
    · rw [if_neg hexp]
      refine ⟨?_, ?_, ?_, ?_, ?_⟩ <;> simp [Cache.get, hl, hexp]

/-- Claim C4 witness: a Get of the unexpired entry under "u" is a hit that
refreshes its access time. -/
theorem get_contract_witness :
    (cacheU.get 1 "u").1 = some entryU ∧
    (cacheU.get 1 "u").2.hits = cacheU.hits + 1 ∧
    (cacheU.get 1 "u").2.misses = cacheU.misses ∧
    (cacheU.get 1 "u").2.accessLRU = insertA cacheU.accessLRU "u" 1 ∧
    (cacheU.get 1 "u").2.entries = cacheU.entries :=
  get_contract cacheU 1 "u" (some entryU) (by decide) (by decide)

/-- Claim C5: with an unexpired cached entry and an origin answering "not
modified", resolve returns the cached payload bytes unchanged with the
remaining time until the existing expiry, and the cache keeps the entry
exactly as it was: only the access time and the hit counter change. -/
theorem fetchUpstream_notModified_reuses_entry (origin : Origin) (defaultTTL : Int)
    (c : Cache) (now : Int) (url : String) (e : Entry)
    (hl : lookupA c.entries url = some e)
    (hfresh : e.isExpired now = false)
    (hcond : origin.conditional url e.etag e.lastModified = CondFetchResult.notModified) :
    fetchUpstream origin defaultTTL c now url =
      (some (e.data, e.expiry - now),
       { c with accessLRU := insertA c.accessLRU url now, hits := c.hits + 1 }) := by
  have hget : c.get now url =
      (some e, { c with accessLRU := insertA c.accessLRU url now, hits := c.hits + 1 }) := by
    simp [Cache.get, hl, hfresh]
  simp only [fetchUpstream, hget, hcond]

/-- Claim C5 witness: the entry under "u" is reused verbatim, with the 2
remaining time units until its expiry. -/
theorem fetchUpstream_notModified_reuses_entry_witness :
    fetchUpstream originNotModified 60 cacheU 1 "u" =
      (some (entryU.data, entryU.expiry - 1),
       { cacheU with accessLRU := insertA cacheU.accessLRU "u" 1, hits := cacheU.hits + 1 }) :=
  fetchUpstream_notModified_reuses_entry originNotModified 60 cacheU 1 "u" entryU
    (by decide) (by decide) rfl

/-- Claim C6 counterexample: when the cached entry for "u" has expired and the
origin fetch fails, resolve propagates the failure but the entry has still
been removed by the initial lookup: the cache is not left exactly as it was. -/
theorem fetchUpstream_failure_removed_expired_entry :
    (lookupA cacheU.entries "u").isSome = true ∧
    (fetchUpstream originFail 60 cacheU 10 "u").1 = none ∧
    lookupA (fetchUpstream originFail 60 cacheU 10 "u").2.entries "u" = none := by decide

/-- Claim C6 (amended): when the origin fetch fails, resolve propagates the
failure and writes or overwrites no entry: the resulting cache is exactly the
cache after the initial Get alone, whose entry set is either unchanged or has
lazily dropped an already-expired entry at the requested address. -/
theorem fetchUpstream_failure_writes_nothing (origin : Origin) (defaultTTL : Int)
    (c : Cache) (now : Int) (url : String)
    (hcond : ∀ et lm, origin.conditional url et lm = CondFetchResult.fetchError)
    (hunc : origin.unconditional url = FetchOutcome.fetchError) :
    fetchUpstream origin defaultTTL c now url = (none, (c.get now url).2) ∧
    ((c.get now url).2.entries = c.entries ∨
      (c.get now url).2.entries = eraseA c.entries url) := by
  constructor
  · cases hg : c.get now url with
    | mk eo c1 =>
      cases eo with
      | none => simp only [fetchUpstream, hg, hunc]
      | some e => simp only [fetchUpstream, hg, hcond e.etag e.lastModified]
  · cases hl : lookupA c.entries url with
    | none =>
      left
      simp [Cache.get, hl]
    | some e =>
      by_cases hexp : e.isExpired now = true
      · right
        simp [Cache.get, hl, hexp]
      · left
        simp [Cache.get, hl, hexp]

/-- Claim C6 witness: with both origin calls failing and an unexpired entry,
resolve fails and the cache equals the state after the lookup alone. -/
theorem fetchUpstream_failure_writes_nothing_witness :
    fetchUpstream originFail 60 cacheU 1 "u" = (none, (cacheU.get 1 "u").2) ∧
    ((cacheU.get 1 "u").2.entries = cacheU.entries ∨
      (cacheU.get 1 "u").2.entries = eraseA cacheU.entries "u") :=
  fetchUpstream_failure_writes_nothing originFail 60 cacheU 1 "u" (fun _ _ => rfl) rfl

/-- Claim C10: on a fresh or modified fetch, resolve returns the TTL parsed
from the origin headers (or the configured default when that is zero) with no
clamping — this value drives the output-cache Set and the client Cache-Control
header — while the raw-document entry it stores has that TTL clamped into
[minTTL, maxTTL]; above maxTTL (or below minTTL) the returned TTL therefore
differs from the stored entry's actual lifetime. -/
theorem fetchUpstream_ttl_discrepancy (origin : Origin) (defaultTTL : Int)
    (c : Cache) (now : Int) (url : String) (resp : FetchResponse)
    (ttlRet ttlStored : Int)
    (httl : ttlRet = if resp.parsedTTL = 0 then defaultTTL else resp.parsedTTL)
    (hstored : ttlStored = if ttlRet < c.minTTL then c.minTTL
                           else if c.maxTTL < ttlRet then c.maxTTL else ttlRet)
    (hminmax : c.minTTL ≤ c.maxTTL)
    (hbr : (lookupA c.entries url = none ∧ origin.unconditional url = FetchOutcome.ok resp) ∨
           (∃ e, lookupA c.entries url = some e ∧ e.isExpired now = false ∧
             origin.conditional url e.etag e.lastModified = CondFetchResult.modified resp)) :
    (fetchUpstream origin defaultTTL c now url).1 = some (resp.body, ttlRet) ∧
    lookupA (fetchUpstream origin defaultTTL c now url).2.entries url =
      some { data := resp.body, expiry := now + ttlStored,
             etag := resp.etag, lastModified := resp.lastModified } ∧
    (c.maxTTL < ttlRet → ttlStored = c.maxTTL ∧ ttlStored ≠ ttlRet) ∧
    (ttlRet < c.minTTL → ttlStored = c.minTTL ∧ ttlStored ≠ ttlRet) := by
  have harith1 : c.maxTTL < ttlRet → ttlStored = c.maxTTL ∧ ttlStored ≠ ttlRet := by
    intro h
    rw [hstored]
    constructor <;> [skip; intro hcontra] <;> split_ifs at * <;> omega
  have harith2 : ttlRet < c.minTTL → ttlStored = c.minTTL ∧ ttlStored ≠ ttlRet := by
    intro h
    rw [hstored]
    constructor <;> [skip; intro hcontra] <;> split_ifs at * <;> omega
  have hclamp : ∀ c1 : Cache, c1.minTTL = c.minTTL → c1.maxTTL = c.maxTTL →
      lookupA (c1.set now url resp.body (if resp.parsedTTL = 0 then defaultTTL else resp.parsedTTL)
        resp.etag resp.lastModified).entries url =
      some { data := resp.body, expiry := now + ttlStored,
             etag := resp.etag, lastModified := resp.lastModified } := by
    intro c1 hmin hmax
    rw [lookupA_set_self, hmin, hmax]
    have hexp : (if c.maxTTL <
          (if (if resp.parsedTTL = 0 then defaultTTL else resp.parsedTTL) < c.minTTL
           then c.minTTL
           else (if resp.parsedTTL = 0 then defaultTTL else resp.parsedTTL))
        then c.maxTTL
        else (if (if resp.parsedTTL = 0 then defaultTTL else resp.parsedTTL) < c.minTTL
              then c.minTTL
              else (if resp.parsedTTL = 0 then defaultTTL else resp.parsedTTL))) = ttlStored := by
      rw [hstored, httl]
      split_ifs <;> omega
    rw [hexp]
  cases hbr with
  | inl hfr =>
    obtain ⟨hl, hok⟩ := hfr
    have hget : c.get now url = (none, { c with misses := c.misses + 1 }) := by
      simp [Cache.get, hl]
    refine ⟨?_, ?_, harith1, harith2⟩
    · simp only [fetchUpstream, hget, hok, httl]
    · simp only [fetchUpstream, hget, hok]
      exact hclamp { c with misses := c.misses + 1 } rfl rfl
  | inr hmod =>
    obtain ⟨e, hl, hfresh, hcond⟩ := hmod
    have hget : c.get now url =
        (some e, { c with accessLRU := insertA c.accessLRU url now, hits := c.hits + 1 }) := by
      simp [Cache.get, hl, hfresh]
    refine ⟨?_, ?_, harith1, harith2⟩
    · simp only [fetchUpstream, hget, hcond, httl]
    · simp only [fetchUpstream, hget, hcond]
      exact hclamp { c with accessLRU := insertA c.accessLRU url now, hits := c.hits + 1 } rfl rfl

/-- Claim C10 witness: an origin TTL of 9999 on a store with maxTTL 100 is
returned as 9999 but stored with effective TTL 100. -/
theorem fetchUpstream_ttl_discrepancy_witness :
    (fetchUpstream (originServes respW) 60 cacheW 0 "w").1 = some (respW.body, 9999) ∧
    lookupA (fetchUpstream (originServes respW) 60 cacheW 0 "w").2.entries "w" =
      some { data := respW.body, expiry := 0 + 100,
             etag := respW.etag, lastModified := respW.lastModified } ∧
    (cacheW.maxTTL < 9999 → (100 : Int) = cacheW.maxTTL ∧ (100 : Int) ≠ 9999) ∧
    ((9999 : Int) < cacheW.minTTL → (100 : Int) = cacheW.minTTL ∧ (100 : Int) ≠ 9999) :=
  fetchUpstream_ttl_discrepancy (originServes respW) 60 cacheW 0 "w" respW 9999 100
    (by decide) (by decide) (by decide) (Or.inl ⟨rfl, rfl⟩)

/-- Claim C2 (code bug): overwriting the only key of a store at entry capacity
releases the old entry's size and then lets the eviction loop evict that same
key, decrementing its size a second time; afterwards the accounted memory (0)
no longer equals the sum of the present entries' sizes (24). -/
theorem set_overwrite_double_decrements_memory :
    doubleDecTrace.memory = 0 ∧
    sumEntrySizes doubleDecTrace.entries = 24 ∧
    doubleDecTrace.memory ≠ sumEntrySizes doubleDecTrace.entries := by decide

end Recal
